/-
Verification of the basketball-reference scraper (src/bball_ref.py).

The two functions of the module, `get_all_players` and `get_table`, are
shallowly embedded below.  HTML documents are modelled by the features the
code queries: a document carries its div containers (looked up by id) and
its string nodes (text and comment nodes, the candidates of
find_all(string=...)); a table container carries its optional thead/tbody;
a cell carries its tag kind, its data-stat attribute, its visible text, its
anchor elements and its count of strong elements.  Python exceptions are
modelled with Except: IndexError for out-of-range subscripts, KeyError for
a missing attribute subscript, AttributeError for calling get_text() on
None, and NameError for the reference to the identifier Comment, which the
module never imports.  Python dict assignment (insertion ordered, an
existing key keeps its position and gets the new value) is modelled by
dictSet.
-/
import Mathlib

set_option maxHeartbeats 1000000

/-- Python exceptions raised by the embedded code. -/
inductive PyError where
  | indexError
  | keyError
  | attributeError
  | nameError
deriving DecidableEq

/-- Dynamically typed Python values appearing in a roster row. -/
inductive PyVal where
  | str (s : String)
  | int (n : Nat)
  | bool (b : Bool)
deriving DecidableEq

/-- Whether a Python value is a boolean. -/
def isBoolVal : PyVal → Bool
  | .bool _ => true
  | _ => false

/-- Python truthiness of a value. -/
def pyTruthy : PyVal → Bool
  | .str s => !s.isEmpty
  | .int n => n != 0
  | .bool b => b

/-- The tag of a table cell: header cell or data cell. -/
inductive CellTag where
  | th
  | td
deriving DecidableEq

/-- An anchor element; its hyperlink target may be missing. -/
structure Anchor where
  href : Option String
deriving DecidableEq

/-- A table cell as the code queries it: tag kind, data-stat attribute,
visible text (its get_text()), contained anchor elements, and the number of
contained strong elements. -/
structure Cell where
  tag : CellTag
  dataStat : Option String
  text : String
  anchors : List Anchor
  strongs : Nat
deriving DecidableEq

/-- A table row: its cells in physical document order. -/
structure Row where
  cells : List Cell
deriving DecidableEq

/-- A thead section: its header cells in document order. -/
structure THead where
  ths : List Cell
deriving DecidableEq

/-- A tbody section: its rows in document order. -/
structure TBody where
  trs : List Row
deriving DecidableEq

/-- A div container: its id attribute and its optional thead/tbody. -/
structure TableDiv where
  id : Option String
  thead : Option THead
  tbody : Option TBody
deriving DecidableEq

/-- A string node of the document: a text node or a comment node (both are
candidates of soup.find_all(string=...)). -/
inductive StrNode where
  | text (s : String)
  | comment (s : String)
deriving DecidableEq

/-- A parsed page as get_table queries it: its div containers in document
order and its string nodes in document order. -/
structure Doc where
  divs : List TableDiv
  strings : List StrNode
deriving DecidableEq

/-- The insertion-ordered dictionary built by get_table. -/
abbrev PyDict := List (String × List String)

/-- The stat table get_table returns (the dict passed to pd.DataFrame). -/
structure StatTable where
  cols : PyDict
deriving DecidableEq

/-- Python dict assignment d[k] = v: an existing key keeps its position and
receives the new value, a new key is appended at the end. -/
def dictSet : PyDict → String → List String → PyDict
  | [], k, v => [(k, v)]
  | (k1, v1) :: tl, k, v =>
      if k1 = k then (k, v) :: tl else (k1, v1) :: dictSet tl k v

/-- Python dict lookup d[k] as an Option. -/
def dictGet (d : PyDict) (k : String) : Option (List String) :=
  (d.find? (fun kv => kv.1 == k)).map (fun kv => kv.2)

/-- The keys a sequence of dict assignments adds beyond those already seen,
in first-occurrence order. -/
def newKeys (seen : List String) : List String → List String
  | [] => []
  | x :: xs => if x ∈ seen then newKeys seen xs else x :: newKeys (x :: seen) xs

/-- A list-with-exceptions map, modelling a Python loop that may raise. -/
def exceptMapM (f : α → Except PyError β) : List α → Except PyError (List β)
  | [] => .ok []
  | a :: as =>
      match f a with
      | .error e => .error e
      | .ok b =>
          match exceptMapM f as with
          | .error e => .error e
          | .ok bs => .ok (b :: bs)

/-- row.find(tag, \x7b"data-stat": ds\x7d): the first cell of the row with the
given tag kind and data-stat attribute value. -/
def cellFind (t : CellTag) (ds : Option String) (r : Row) : Option Cell :=
  r.cells.find? (fun c => c.tag == t && c.dataStat == ds)

/-- The number of cells of a row matching a tag kind and data-stat value. -/
def countMatches (r : Row) (t : CellTag) (ds : Option String) : Nat :=
  r.cells.countP (fun c => c.tag == t && c.dataStat == ds)

/-- One column's values: for each body row, row.find(tag, data-stat).get_text();
a row with no matching cell raises AttributeError (None.get_text()). -/
def colValues (t : CellTag) (ds : Option String) (rows : List Row) :
    Except PyError (List String) :=
  exceptMapM
    (fun r =>
      match cellFind t ds r with
      | some c => .ok c.text
      | none => .error .attributeError)
    rows

/-- The loop `for th in headers[1:]`: assign each remaining header's column,
keyed by its visible text, valued by td-cells matching its data-stat. -/
def dictFold (rows : List Row) : List Cell → PyDict → Except PyError PyDict
  | [], d => .ok d
  | h :: hs, d =>
      match colValues CellTag.td h.dataStat rows with
      | .error e => .error e
      | .ok v => dictFold rows hs (dictSet d h.text v)

/-- Lines 101-119 of the source: headers[0] is read (IndexError on an empty
header list), its column comes from th-cells, the remaining columns from
td-cells, all keyed by the headers' visible texts. -/
def extractCols (hd : List Cell) (rows : List Row) : Except PyError PyDict :=
  match hd with
  | [] => .error .indexError
  | h0 :: rest =>
      match colValues CellTag.th h0.dataStat rows with
      | .error e => .error e
      | .ok v0 => dictFold rows rest (dictSet [] h0.text v0)

/-- The tail of get_table once a container is in hand: None when thead or
tbody is missing, otherwise the extracted column dict. -/
def extractDiv (d : TableDiv) : Except PyError (Option StatTable) :=
  match d.thead, d.tbody with
  | some hd, some bd =>
      match extractCols hd.ths bd.trs with
      | .ok cols => .ok (some ⟨cols⟩)
      | .error e => .error e
  | _, _ => .ok none

/-- get_table (lines 87-121): find the div by id; when absent, the code
iterates soup.find_all(string=lambda text: isinstance(text, Comment)) --
evaluating that lambda on the first string node raises NameError because
Comment is never imported, and with no string nodes the loop body never
runs and the function falls through to return None. -/
def get_table (soup : Doc) (div_id : String) : Except PyError (Option StatTable) :=
  match soup.divs.find? (fun dv => dv.id == some div_id) with
  | some d => extractDiv d
  | none =>
      match soup.strings with
      | [] => .ok none
      | _ :: _ => .error .nameError

/-- Python name[-1]: the last character of a string, IndexError when empty. -/
def lastChar (s : String) : Except PyError Char :=
  match s.toList.getLast? with
  | some c => .ok c
  | none => .error .indexError

/-- Python name.rstrip("*"): remove every trailing asterisk. -/
def pyRstripStar (s : String) : String :=
  ⟨(s.toList.reverse.dropWhile (fun c => c == '*')).reverse⟩

/-- Line 53 of the source: the single anchor's href when exactly one anchor
is present (KeyError when that anchor has no href), else the empty string. -/
def linkOf (th : Cell) : Except PyError String :=
  if th.anchors.length == 1 then
    match th.anchors with
    | [] => .error .indexError
    | a :: _ =>
        match a.href with
        | some u => .ok u
        | none => .error .keyError
  else .ok ""

/-- Lines 49-56 of the source once the row's first th cell is in hand:
name, stats, link, is_active and is_hof are computed and the record
[name.rstrip("*")] + stats + [link, is_active, is_hof] is emitted. -/
def processRowWith (r : Row) (th : Cell) : Except PyError (List PyVal) :=
  match linkOf th with
  | .error e => .error e
  | .ok link =>
      match lastChar th.text with
      | .error e => .error e
      | .ok lc =>
          .ok ([PyVal.str (pyRstripStar th.text)] ++
            (r.cells.filter (fun c => c.tag == CellTag.td)).map
              (fun c => PyVal.str c.text) ++
            [PyVal.str link, PyVal.int th.strongs, PyVal.bool (lc == '*')])

/-- Lines 48-56 of the source: row.find_all("th")[0] (IndexError when the
row has no th cell), then the record is built from that cell. -/
def processRow (r : Row) : Except PyError (List PyVal) :=
  match r.cells.find? (fun c => c.tag == CellTag.th) with
  | none => .error .indexError
  | some th => processRowWith r th

/-- Whether a Python call returned normally rather than raising. -/
def exceptIsOk {α : Type} : Except PyError α → Bool
  | .ok _ => true
  | .error _ => false

/-- A fetched roster page as the code queries it: its tr rows. -/
structure Page where
  trs : List Row
deriving DecidableEq

/-- The value get_all_players returns: the tuple ([], []) of line 33, the
bare pd.DataFrame() of line 40, or the final data frame of line 64. -/
inductive RosterReturn where
  | listPair
  | emptyFrame
  | frame (columns : List String) (data : List (List PyVal))
deriving DecidableEq

/-- Whether a roster return value is a pandas data frame. -/
def RosterReturn.isDataFrame : RosterReturn → Bool
  | .listPair => false
  | _ => true

/-- The 26 lowercase letters iterated by get_all_players. -/
def alphabet : List Char := "abcdefghijklmnopqrstuvwxyz".toList

/-- tr[0].get_text(): the concatenated text of a row's cells. -/
def rowText (r : Row) : String :=
  String.join (r.cells.map Cell.text)

/-- The per-letter loop of get_all_players (lines 24-61): a failed request
returns the tuple ([], []); a page without tr rows returns pd.DataFrame();
otherwise the first row yields the header names and the remaining rows are
processed and accumulated. -/
def rosterLoop (fetch : Char → Option Page) :
    List Char → List String → List (List PyVal) → Except PyError RosterReturn
  | [], headers, dfList =>
      .ok (.frame (headers.map String.toLower ++ ["url", "is_active", "is_hof"]) dfList)
  | l :: ls, _headers, dfList =>
      match fetch l with
      | none => .ok .listPair
      | some page =>
          match page.trs with
          | [] => .ok .emptyFrame
          | tr0 :: rest =>
              match exceptMapM processRow rest with
              | .error e => .error e
              | .ok raw =>
                  rosterLoop fetch ls ((rowText tr0).trim.splitOn "\n") (dfList ++ raw)

/-- get_all_players over a fetch oracle (none models requests raising
RequestException: network error, timeout, or non-2xx status). -/
def get_all_players (fetch : Char → Option Page) : Except PyError RosterReturn :=
  rosterLoop fetch alphabet [] []

/-! Concrete inputs used by the code-bug evaluations, counterexamples and
witnesses. -/

/-- A header cell with a data-stat attribute. -/
def mkTh (txt ds : String) : Cell := ⟨CellTag.th, some ds, txt, [], 0⟩

/-- A data cell with a data-stat attribute. -/
def mkTd (txt ds : String) : Cell := ⟨CellTag.td, some ds, txt, [], 0⟩

/-- A page whose only tr row is the header row, so no data rows follow. -/
def pageHeaderOnly : Page := ⟨[⟨[⟨CellTag.th, none, "Player", [], 0⟩]⟩]⟩

/-- A document whose target container appears only inside a comment node. -/
def docC2 : Doc :=
  ⟨[], [StrNode.comment "<div id=\"per_game\"><table><thead></thead><tbody></tbody></table></div>"]⟩

/-- A document without the target id, holding an ordinary text node. -/
def docC3 : Doc := ⟨[⟨some "other", none, none⟩], [StrNode.text "hello"]⟩

/-- A document whose target container is present but lacks thead and tbody. -/
def docC3b : Doc := ⟨[⟨some "per_game", none, none⟩], [StrNode.text "hello"]⟩

/-- The header cells of the reversed-order alignment example: three columns
A, B, C with data-stat keys a, b, c. -/
def hdRev : THead := ⟨[mkTh "A" "a", mkTh "B" "b", mkTh "C" "c"]⟩

/-- First body row of the alignment example, cells physically reversed. -/
def rowRev1 : Row := ⟨[mkTd "c1" "c", mkTd "b1" "b", mkTh "a1" "a"]⟩

/-- Second body row of the alignment example, cells physically reversed. -/
def rowRev2 : Row := ⟨[mkTd "c2" "c", mkTd "b2" "b", mkTh "a2" "a"]⟩

/-- The body of the alignment example. -/
def bdRev : TBody := ⟨[rowRev1, rowRev2]⟩

/-- The container of the alignment example. -/
def dRev : TableDiv := ⟨some "t", some hdRev, some bdRev⟩

/-- The alignment example document. -/
def docRev : Doc := ⟨[dRev], []⟩

/-- The table extracted from the alignment example. -/
def tRev : StatTable := ⟨[("A", ["a1", "a2"]), ("B", ["b1", "b2"]), ("C", ["c1", "c2"])]⟩

/-- The B column of the alignment example. -/
def colB : List String := ["b1", "b2"]

/-- Header cells with a duplicated visible text X. -/
def hdDup : THead := ⟨[mkTh "A" "h0", mkTh "X" "s1", mkTh "X" "s2"]⟩

/-- The single body row of the duplicate-header example. -/
def rowDup : Row := ⟨[mkTh "r" "h0", mkTd "v1" "s1", mkTd "v2" "s2"]⟩

/-- The body of the duplicate-header example. -/
def bdDup : TBody := ⟨[rowDup]⟩

/-- The container of the duplicate-header example. -/
def dDup : TableDiv := ⟨some "t", some hdDup, some bdDup⟩

/-- The duplicate-header example document. -/
def docDup : Doc := ⟨[dDup], []⟩

/-- The table extracted from the duplicate-header example: one column per
distinct text, the duplicated text holding the later cell's values. -/
def tDup : StatTable := ⟨[("A", ["r"]), ("X", ["v2"])]⟩

/-- A name cell whose text ends in two asterisks. -/
def cellStars : Cell := ⟨CellTag.th, none, "AB**", [], 0⟩

/-- A roster row whose name ends in two asterisks. -/
def rowStars : Row := ⟨[cellStars]⟩

/-- A name cell containing one strong marker element. -/
def cellStrong : Cell := ⟨CellTag.th, none, "Joe", [], 1⟩

/-- A roster row whose name cell holds one strong marker. -/
def rowStrong : Row := ⟨[cellStrong]⟩

/-- A name cell containing exactly one anchor with a target. -/
def cellLink : Cell := ⟨CellTag.th, none, "Name", [⟨some "/players/x.html"⟩], 0⟩

/-- A roster row whose name cell holds exactly one anchor. -/
def rowLink : Row := ⟨[cellLink]⟩

/-- A name cell with empty text. -/
def cellEmpty : Cell := ⟨CellTag.th, none, "", [], 0⟩

/-- A roster row whose name cell text is empty. -/
def rowEmpty : Row := ⟨[cellEmpty]⟩


/-! Lemmas about the embedded primitives. -/

theorem exceptMapM_ok_length {α β : Type} {f : α → Except PyError β} {l : List α}
    {l' : List β} (h : exceptMapM f l = .ok l') : l'.length = l.length := by
  induction l generalizing l' with
  | nil => simp [exceptMapM] at h; simp [← h]
  | cons a as ih =>
      unfold exceptMapM at h
      cases hfa : f a with
      | error e => rw [hfa] at h; simp at h
      | ok b =>
          rw [hfa] at h
          cases hrec : exceptMapM f as with
          | error e => rw [hrec] at h; simp at h
          | ok bs =>
              rw [hrec] at h
              simp only [Except.ok.injEq] at h
              subst h
              simp [ih hrec]

theorem exceptMapM_ok_get {α β : Type} {f : α → Except PyError β} {l : List α}
    {l' : List β} (h : exceptMapM f l = .ok l') :
    ∀ {j : Nat} {a : α}, l.get? j = some a → ∃ b, f a = .ok b ∧ l'.get? j = some b := by
  induction l generalizing l' with
  | nil => intro j a hj; simp at hj
  | cons x xs ih =>
      intro j a hj
      unfold exceptMapM at h
      cases hfa : f x with
      | error e => rw [hfa] at h; simp at h
      | ok b =>
          rw [hfa] at h
          cases hrec : exceptMapM f xs with
          | error e => rw [hrec] at h; simp at h
          | ok bs =>
              rw [hrec] at h
              simp only [Except.ok.injEq] at h
              subst h
              cases j with
              | zero =>
                  simp at hj
                  subst hj
                  exact ⟨b, hfa, rfl⟩
              | succ n =>
                  simp only [List.get?_cons_succ] at hj ⊢
                  exact ih hrec hj

theorem exceptMapM_error_mem {α β : Type} {f : α → Except PyError β} {l : List α}
    {e : PyError} (h : exceptMapM f l = .error e) : ∃ a ∈ l, f a = .error e := by
  induction l with
  | nil => simp [exceptMapM] at h
  | cons x xs ih =>
      unfold exceptMapM at h
      cases hfa : f x with
      | error e' =>
          rw [hfa] at h
          simp only [Except.error.injEq] at h
          subst h
          exact ⟨x, List.mem_cons_self x xs, hfa⟩
      | ok b =>
          rw [hfa] at h
          cases hrec : exceptMapM f xs with
          | error e' =>
              rw [hrec] at h
              simp only [Except.error.injEq] at h
              subst h
              obtain ⟨a, ha, hfa'⟩ := ih hrec
              exact ⟨a, List.mem_cons_of_mem x ha, hfa'⟩
          | ok bs => rw [hrec] at h; simp at h

theorem colValues_error_eq {t : CellTag} {ds : Option String} {rows : List Row}
    {e : PyError} (h : colValues t ds rows = .error e) : e = .attributeError := by
  obtain ⟨r, _, hr⟩ := exceptMapM_error_mem h
  cases hfind : cellFind t ds r with
  | some c => rw [hfind] at hr; simp at hr
  | none => rw [hfind] at hr; simp only [Except.error.injEq] at hr; exact hr.symm

theorem colValues_err_of_missing {t : CellTag} {ds : Option String} {rows : List Row}
    {r : Row} (hmem : r ∈ rows) (hmiss : cellFind t ds r = none) :
    colValues t ds rows = .error .attributeError := by
  induction rows with
  | nil => simp at hmem
  | cons x xs ih =>
      unfold colValues exceptMapM
      rcases List.mem_cons.mp hmem with hx | hx
      · subst hx
        rw [hmiss]
      · cases hfx : cellFind t ds x with
        | none => rfl
        | some c =>
            have := ih hx
            unfold colValues at this
            rw [this]

theorem find?_of_countP_one {α : Type} {p : α → Bool} {l : List α} {c : α}
    (h1 : l.countP p = 1) (hc : c ∈ l) (hpc : p c = true) : l.find? p = some c := by
  induction l with
  | nil => simp at hc
  | cons a tl ih =>
      rw [List.countP_cons] at h1
      by_cases hpa : p a = true
      · rw [List.find?_cons_of_pos tl hpa]
        rw [if_pos hpa] at h1
        have htl : tl.countP p = 0 := by omega
        rcases List.mem_cons.mp hc with hca | hca
        · rw [hca]
        · exfalso
          have : 0 < tl.countP p := List.countP_pos_iff.mpr ⟨c, hca, hpc⟩
          omega
      · rw [List.find?_cons_of_neg tl hpa]
        rw [if_neg hpa] at h1
        rcases List.mem_cons.mp hc with hca | hca
        · subst hca; exact absurd hpc hpa
        · exact ih (by omega) hca

theorem find?_of_countP_zero {α : Type} {p : α → Bool} {l : List α}
    (h : l.countP p = 0) : l.find? p = none :=
  List.find?_eq_none.mpr (List.countP_eq_zero.mp h)

theorem nodup_countP_le_one {α : Type} [DecidableEq α] {l : List α} {k : α}
    (h : l.Nodup) : l.countP (fun x => x == k) ≤ 1 := by
  induction l with
  | nil => simp [List.countP_nil]
  | cons a tl ih =>
      rw [List.countP_cons]
      rcases List.nodup_cons.mp h with ⟨hnin, hnd⟩
      by_cases ha : a = k
      · subst ha
        simp only [beq_self_eq_true, if_pos]
        have : tl.countP (fun x => x == a) = 0 :=
          List.countP_eq_zero.mpr (fun b hb hba => hnin (by rwa [eq_of_beq hba] at hb))
        omega
      · have : (a == k) = false := beq_eq_false_iff_ne.mpr ha
        rw [this]
        simp only [Bool.false_eq_true, if_false, Nat.add_zero]
        exact ih hnd

theorem dictSet_keys (d : PyDict) (k : String) (v : List String) :
    (dictSet d k v).map Prod.fst =
      if k ∈ d.map Prod.fst then d.map Prod.fst else d.map Prod.fst ++ [k] := by
  induction d with
  | nil => simp [dictSet]
  | cons kv tl ih =>
      obtain ⟨k1, v1⟩ := kv
      by_cases hk : k1 = k
      · subst hk
        simp [dictSet]
      · simp only [dictSet, if_neg hk, List.map_cons, ih]
        by_cases hmem : k ∈ tl.map Prod.fst
        · simp [hmem, Ne.symm hk]
        · simp [hmem, Ne.symm hk]

theorem dictGet_dictSet_self (d : PyDict) (k : String) (v : List String) :
    dictGet (dictSet d k v) k = some v := by
  induction d with
  | nil => simp [dictSet, dictGet]
  | cons kv tl ih =>
      obtain ⟨k1, v1⟩ := kv
      by_cases hk : k1 = k
      · subst hk
        simp [dictSet, dictGet]
      · simp only [dictSet, if_neg hk]
        unfold dictGet
        rw [List.find?_cons_of_neg]
        · exact ih
        · simp [hk]

theorem dictSet_cons_pos {k1 : String} {v1 : List String} {tl : PyDict} {k : String}
    {v : List String} (h : k1 = k) : dictSet ((k1, v1) :: tl) k v = (k, v) :: tl := by
  simp [dictSet, h]

theorem dictSet_cons_neg {k1 : String} {v1 : List String} {tl : PyDict} {k : String}
    {v : List String} (h : k1 ≠ k) :
    dictSet ((k1, v1) :: tl) k v = (k1, v1) :: dictSet tl k v := by
  simp [dictSet, h]

theorem dictGet_dictSet_ne (d : PyDict) {k k' : String} (v : List String)
    (h : k' ≠ k) : dictGet (dictSet d k v) k' = dictGet d k' := by
  induction d with
  | nil => simp [dictSet, dictGet, Ne.symm h]
  | cons kv tl ih =>
      obtain ⟨k1, v1⟩ := kv
      by_cases hk : k1 = k
      · rw [dictSet_cons_pos hk]
        unfold dictGet
        rw [List.find?_cons_of_neg _ (by simp [Ne.symm h]),
          List.find?_cons_of_neg _ (by simp [hk, Ne.symm h])]
      · rw [dictSet_cons_neg hk]
        unfold dictGet
        by_cases hk' : k1 = k'
        · subst hk'
          rw [List.find?_cons_of_pos _ (by simp), List.find?_cons_of_pos _ (by simp)]
        · rw [List.find?_cons_of_neg _ (by simp [hk']), List.find?_cons_of_neg _ (by simp [hk'])]
          exact ih

theorem mem_dictSet {d : PyDict} {k : String} {v : List String} {kv : String × List String}
    (h : kv ∈ dictSet d k v) : kv = (k, v) ∨ kv ∈ d := by
  induction d with
  | nil => simp [dictSet] at h; simp [h]
  | cons kv1 tl ih =>
      obtain ⟨k1, v1⟩ := kv1
      by_cases hk : k1 = k
      · subst hk
        simp only [dictSet, if_pos rfl] at h
        rcases List.mem_cons.mp h with h | h
        · exact Or.inl h
        · exact Or.inr (List.mem_cons_of_mem _ h)
      · simp only [dictSet, if_neg hk] at h
        rcases List.mem_cons.mp h with h | h
        · exact Or.inr (by simp [h])
        · rcases ih h with h' | h'
          · exact Or.inl h'
          · exact Or.inr (List.mem_cons_of_mem _ h')

theorem dictGet_of_mem_nodup {d : PyDict} {kv : String × List String}
    (hnd : (d.map Prod.fst).Nodup) (h : kv ∈ d) : dictGet d kv.1 = some kv.2 := by
  induction d with
  | nil => simp at h
  | cons kv1 tl ih =>
      obtain ⟨k1, v1⟩ := kv1
      rcases List.mem_cons.mp h with h | h
      · subst h
        simp [dictGet]
      · rcases List.nodup_cons.mp hnd with ⟨hnin, hnd'⟩
        have hne : k1 ≠ kv.1 := by
          intro he
          apply hnin
          rw [he]
          exact List.mem_map.mpr ⟨kv, h, rfl⟩
        unfold dictGet
        rw [List.find?_cons_of_neg _ (by simp [hne])]
        exact ih hnd' h

theorem keys_countP_one {d : PyDict} {k : String}
    (hnd : (d.map Prod.fst).Nodup) (h : k ∈ d.map Prod.fst) :
    d.countP (fun kv => kv.1 == k) = 1 := by
  induction d with
  | nil => simp at h
  | cons kv1 tl ih =>
      obtain ⟨k1, v1⟩ := kv1
      rw [List.countP_cons]
      rcases List.nodup_cons.mp hnd with ⟨hnin, hnd'⟩
      by_cases hk : k1 = k
      · subst hk
        simp only [beq_self_eq_true, if_pos]
        have : tl.countP (fun kv => kv.1 == k1) = 0 := by
          apply List.countP_eq_zero.mpr
          intro kv hkv hb
          apply hnin
          rw [← eq_of_beq hb]
          exact List.mem_map.mpr ⟨kv, hkv, rfl⟩
        omega
      · have hb : ((k1, v1).1 == k) = false := beq_eq_false_iff_ne.mpr hk
        rw [hb]
        simp only [Bool.false_eq_true, if_false, Nat.add_zero]
        have hcons : k ∈ k1 :: tl.map Prod.fst := h
        have : k ∈ tl.map Prod.fst := by
          rcases List.mem_cons.mp hcons with h' | h'
          · exact absurd h'.symm hk
          · exact h'
        exact ih hnd' this

theorem newKeys_congr {s s' : List String} (h : ∀ a, a ∈ s ↔ a ∈ s') :
    ∀ l, newKeys s l = newKeys s' l := by
  intro l
  induction l generalizing s s' with
  | nil => rfl
  | cons x xs ih =>
      unfold newKeys
      by_cases hx : x ∈ s
      · rw [if_pos hx, if_pos ((h x).mp hx)]
        exact ih h
      · rw [if_neg hx, if_neg (fun hc => hx ((h x).mpr hc))]
        congr 1
        exact ih (fun a => by simp [h a])

theorem newKeys_sublist (s : List String) (l : List String) :
    List.Sublist (newKeys s l) l := by
  induction l generalizing s with
  | nil => simp [newKeys]
  | cons x xs ih =>
      unfold newKeys
      by_cases hx : x ∈ s
      · rw [if_pos hx]
        exact List.Sublist.cons x (ih s)
      · rw [if_neg hx]
        exact List.Sublist.cons₂ x (ih (x :: s))

theorem newKeys_mem {s : List String} {l : List String} {a : String} :
    a ∈ newKeys s l ↔ a ∈ l ∧ a ∉ s := by
  induction l generalizing s with
  | nil => simp [newKeys]
  | cons x xs ih =>
      unfold newKeys
      by_cases hx : x ∈ s
      · rw [if_pos hx]
        rw [ih]
        constructor
        · rintro ⟨h1, h2⟩
          exact ⟨List.mem_cons_of_mem x h1, h2⟩
        · rintro ⟨h1, h2⟩
          rcases List.mem_cons.mp h1 with h | h
          · subst h; exact absurd hx h2
          · exact ⟨h, h2⟩
      · rw [if_neg hx]
        constructor
        · intro h
          rcases List.mem_cons.mp h with h | h
          · subst h; exact ⟨List.mem_cons_self _ _, hx⟩
          · rcases ih.mp h with ⟨h1, h2⟩
            refine ⟨List.mem_cons_of_mem x h1, ?_⟩
            intro hc
            exact h2 (List.mem_cons_of_mem x hc)
        · rintro ⟨h1, h2⟩
          rcases List.mem_cons.mp h1 with h | h
          · subst h; exact List.mem_cons_self a _
          · by_cases hax : a = x
            · subst hax; exact List.mem_cons_self a _
            · refine List.mem_cons_of_mem x (ih.mpr ⟨h, ?_⟩)
              intro hc
              rcases List.mem_cons.mp hc with h' | h'
              · exact hax h'
              · exact h2 h'

theorem newKeys_nodup (s : List String) (l : List String) :
    (newKeys s l).Nodup := by
  induction l generalizing s with
  | nil => simp [newKeys]
  | cons x xs ih =>
      unfold newKeys
      by_cases hx : x ∈ s
      · rw [if_pos hx]; exact ih s
      · rw [if_neg hx]
        refine List.nodup_cons.mpr ⟨?_, ih (x :: s)⟩
        intro hc
        exact (newKeys_mem.mp hc).2 (List.mem_cons_self x s)

/-! Lemmas about the column-building loop of get_table. -/

theorem newKeys_cons_mem {seen : List String} {x : String} (xs : List String)
    (h : x ∈ seen) : newKeys seen (x :: xs) = newKeys seen xs := by
  simp [newKeys, h]

theorem newKeys_cons_not_mem {seen : List String} {x : String} (xs : List String)
    (h : x ∉ seen) : newKeys seen (x :: xs) = x :: newKeys (x :: seen) xs := by
  simp [newKeys, h]

theorem dictFold_ok_keys {rows : List Row} {hs : List Cell} {d d' : PyDict}
    (h : dictFold rows hs d = .ok d') :
    d'.map Prod.fst = d.map Prod.fst ++ newKeys (d.map Prod.fst) (hs.map Cell.text) := by
  induction hs generalizing d with
  | nil =>
      simp only [dictFold, Except.ok.injEq] at h
      subst h
      simp [newKeys]
  | cons c cs ih =>
      unfold dictFold at h
      cases hcv : colValues CellTag.td c.dataStat rows with
      | error e => rw [hcv] at h; simp at h
      | ok v =>
          rw [hcv] at h
          rw [ih h, dictSet_keys]
          simp only [List.map_cons]
          by_cases hmem : c.text ∈ d.map Prod.fst
          · rw [if_pos hmem, newKeys_cons_mem _ hmem]
          · rw [if_neg hmem, newKeys_cons_not_mem _ hmem, List.append_assoc]
            simp only [List.singleton_append]
            have hcg : newKeys (d.map Prod.fst ++ [c.text]) (cs.map Cell.text) =
                newKeys (c.text :: d.map Prod.fst) (cs.map Cell.text) :=
              newKeys_congr
                (fun a => by simp [List.mem_append, List.mem_cons, or_comm]) _
            rw [hcg]

theorem dictFold_ok_get_not_mem {rows : List Row} {hs : List Cell} {d d' : PyDict}
    {k : String} (h : dictFold rows hs d = .ok d') (hk : k ∉ hs.map Cell.text) :
    dictGet d' k = dictGet d k := by
  induction hs generalizing d with
  | nil =>
      simp only [dictFold, Except.ok.injEq] at h
      subst h
      rfl
  | cons c cs ih =>
      unfold dictFold at h
      cases hcv : colValues CellTag.td c.dataStat rows with
      | error e => rw [hcv] at h; simp at h
      | ok v =>
          rw [hcv] at h
          have hk1 : k ≠ c.text := by
            intro he
            exact hk (by simp [he])
          have hk2 : k ∉ cs.map Cell.text := by
            intro hc
            exact hk (by simp [hc])
          rw [ih h hk2]
          exact dictGet_dictSet_ne d v hk1

theorem dictFold_ok_get_last {rows : List Row} {hs : List Cell} {d d' : PyDict}
    {k : String} (h : dictFold rows hs d = .ok d') (hk : k ∈ hs.map Cell.text) :
    ∃ hc vs, (hs.filter (fun c => c.text == k)).getLast? = some hc ∧ hc.text = k ∧
      colValues CellTag.td hc.dataStat rows = .ok vs ∧ dictGet d' k = some vs := by
  induction hs generalizing d with
  | nil => simp at hk
  | cons c cs ih =>
      unfold dictFold at h
      cases hcv : colValues CellTag.td c.dataStat rows with
      | error e => rw [hcv] at h; simp at h
      | ok v =>
          rw [hcv] at h
          by_cases hkcs : k ∈ cs.map Cell.text
          · obtain ⟨hc, vs, hlast, htext, hcv', hget⟩ := ih h hkcs
            refine ⟨hc, vs, ?_, htext, hcv', hget⟩
            by_cases hpc : (c.text == k) = true
            · rw [List.filter_cons, if_pos hpc]
              cases hfcs : cs.filter (fun c => c.text == k) with
              | nil => rw [hfcs] at hlast; simp at hlast
              | cons b bs =>
                  rw [hfcs] at hlast
                  rw [List.getLast?_cons_cons]
                  exact hlast
            · rw [List.filter_cons, if_neg hpc]
              exact hlast
          · have hkc : k = c.text := by
              rcases List.mem_cons.mp (show k ∈ c.text :: cs.map Cell.text from hk) with h' | h'
              · exact h'
              · exact absurd h' hkcs
            have hfcs : cs.filter (fun c => c.text == k) = [] := by
              apply List.filter_eq_nil_iff.mpr
              intro a ha hba
              exact hkcs (by rw [← eq_of_beq hba]; exact List.mem_map.mpr ⟨a, ha, rfl⟩)
            have hpc : (c.text == k) = true := by
              simp [hkc]
            refine ⟨c, v, ?_, hkc.symm, hcv, ?_⟩
            · rw [List.filter_cons, if_pos hpc, hfcs]
              simp
            · rw [dictFold_ok_get_not_mem h hkcs, hkc]
              exact dictGet_dictSet_self d c.text v

theorem dictFold_ok_all {rows : List Row} {hs : List Cell} {d d' : PyDict}
    (h : dictFold rows hs d = .ok d') :
    ∀ c ∈ hs, ∃ v, colValues CellTag.td c.dataStat rows = .ok v := by
  induction hs generalizing d with
  | nil => simp
  | cons c cs ih =>
      unfold dictFold at h
      cases hcv : colValues CellTag.td c.dataStat rows with
      | error e => rw [hcv] at h; simp at h
      | ok v =>
          rw [hcv] at h
          intro c' hc'
          rcases List.mem_cons.mp hc' with h' | h'
          · subst h'; exact ⟨v, hcv⟩
          · exact ih h c' h'

theorem dictFold_ok_prop {rows : List Row} {hs : List Cell} {d d' : PyDict}
    {P : String × List String → Prop} (h : dictFold rows hs d = .ok d')
    (hins : ∀ c ∈ hs, ∀ v, colValues CellTag.td c.dataStat rows = .ok v → P (c.text, v))
    (hinit : ∀ kv ∈ d, P kv) : ∀ kv ∈ d', P kv := by
  induction hs generalizing d with
  | nil =>
      simp only [dictFold, Except.ok.injEq] at h
      subst h
      exact hinit
  | cons c cs ih =>
      unfold dictFold at h
      cases hcv : colValues CellTag.td c.dataStat rows with
      | error e => rw [hcv] at h; simp at h
      | ok v =>
          rw [hcv] at h
          refine ih h (fun c' hc' => hins c' (List.mem_cons_of_mem c hc')) ?_
          intro kv hkv
          rcases mem_dictSet hkv with h' | h'
          · subst h'
            exact hins c (List.mem_cons_self c cs) v hcv
          · exact hinit kv h'

theorem dictFold_error_attr {rows : List Row} {hs : List Cell} {hc : Cell}
    (hmem : hc ∈ hs) (hcv : colValues CellTag.td hc.dataStat rows = .error .attributeError) :
    ∀ d, dictFold rows hs d = .error .attributeError := by
  induction hs with
  | nil => simp at hmem
  | cons c cs ih =>
      intro d
      unfold dictFold
      cases hcvc : colValues CellTag.td c.dataStat rows with
      | error e => rw [colValues_error_eq hcvc]
      | ok v =>
          rcases List.mem_cons.mp hmem with h' | h'
          · subst h'
            rw [hcvc] at hcv
            simp at hcv
          · exact ih h' (dictSet d c.text v)

theorem extractCols_ok_destruct {h0 : Cell} {rest : List Cell} {rows : List Row}
    {cols : PyDict} (h : extractCols (h0 :: rest) rows = .ok cols) :
    ∃ v0, colValues CellTag.th h0.dataStat rows = .ok v0 ∧
      dictFold rows rest [(h0.text, v0)] = .ok cols := by
  simp only [extractCols] at h
  cases hcv : colValues CellTag.th h0.dataStat rows with
  | error e => rw [hcv] at h; simp at h
  | ok v0 =>
      rw [hcv] at h
      exact ⟨v0, rfl, by simpa [dictSet] using h⟩

theorem extractCols_keys {h0 : Cell} {rest : List Cell} {rows : List Row}
    {cols : PyDict} (h : extractCols (h0 :: rest) rows = .ok cols) :
    cols.map Prod.fst = newKeys [] ((h0 :: rest).map Cell.text) := by
  obtain ⟨v0, _, hfold⟩ := extractCols_ok_destruct h
  rw [dictFold_ok_keys hfold]
  simp only [List.map_cons, List.map_nil]
  rw [newKeys_cons_not_mem _ (List.not_mem_nil h0.text)]
  rfl

theorem get_table_ok_cols {soup : Doc} {div_id : String} {d : TableDiv} {hd : THead}
    {bd : TBody} {t : StatTable}
    (hfind : soup.divs.find? (fun dv => dv.id == some div_id) = some d)
    (hth : d.thead = some hd) (htb : d.tbody = some bd)
    (hok : get_table soup div_id = .ok (some t)) :
    extractCols hd.ths bd.trs = .ok t.cols := by
  unfold get_table at hok
  rw [hfind] at hok
  have hok2 : extractDiv d = .ok (some t) := hok
  unfold extractDiv at hok2
  rw [hth, htb] at hok2
  have hok3 : (match extractCols hd.ths bd.trs with
      | Except.ok cols => (Except.ok (some ⟨cols⟩) : Except PyError (Option StatTable))
      | Except.error e => Except.error e) = .ok (some t) := hok2
  cases hec : extractCols hd.ths bd.trs with
  | ok cols =>
      rw [hec] at hok3
      simp only [Except.ok.injEq, Option.some.injEq] at hok3
      rw [← hok3]
  | error e => rw [hec] at hok3; simp at hok3

theorem get_table_error_of_extract {soup : Doc} {div_id : String} {d : TableDiv}
    {hd : THead} {bd : TBody} {e : PyError}
    (hfind : soup.divs.find? (fun dv => dv.id == some div_id) = some d)
    (hth : d.thead = some hd) (htb : d.tbody = some bd)
    (he : extractCols hd.ths bd.trs = .error e) :
    get_table soup div_id = .error e := by
  unfold get_table
  rw [hfind]
  show extractDiv d = .error e
  unfold extractDiv
  rw [hth, htb]
  show (match extractCols hd.ths bd.trs with
      | Except.ok cols => (Except.ok (some ⟨cols⟩) : Except PyError (Option StatTable))
      | Except.error e1 => Except.error e1) = .error e
  rw [he]

/-! Lemmas about processRow and the string helpers. -/

theorem append3_getLast {α : Type} (xs : List α) (a b c : α) :
    (xs ++ [a, b, c]).getLast? = some c := by
  have h : xs ++ [a, b, c] = (xs ++ [a, b]) ++ [c] := by simp
  rw [h, List.getLast?_concat]

theorem append3_dropLast_getLast {α : Type} (xs : List α) (a b c : α) :
    (xs ++ [a, b, c]).dropLast.getLast? = some b := by
  have h : xs ++ [a, b, c] = (xs ++ [a, b]) ++ [c] := by simp
  rw [h, List.dropLast_concat]
  have h2 : xs ++ [a, b] = (xs ++ [a]) ++ [b] := by simp
  rw [h2, List.getLast?_concat]

theorem append3_dropLast2_getLast {α : Type} (xs : List α) (a b c : α) :
    (xs ++ [a, b, c]).dropLast.dropLast.getLast? = some a := by
  have h : xs ++ [a, b, c] = (xs ++ [a, b]) ++ [c] := by simp
  rw [h, List.dropLast_concat]
  have h2 : xs ++ [a, b] = (xs ++ [a]) ++ [b] := by simp
  rw [h2, List.dropLast_concat, List.getLast?_concat]

theorem lastChar_ok {s : String} {lc : Char} (h : lastChar s = .ok lc) :
    s.toList.getLast? = some lc := by
  unfold lastChar at h
  cases hg : s.toList.getLast? with
  | none => rw [hg] at h; simp at h
  | some c =>
      rw [hg] at h
      simp only [Except.ok.injEq] at h
      rw [h]

theorem pyRstripStar_of_getLast {s : String} {c : Char}
    (h : s.toList.getLast? = some c) (hc : (c == '*') = false) :
    pyRstripStar s = s := by
  unfold pyRstripStar
  have hrev : s.toList.reverse.head? = some c := by rw [List.head?_reverse, h]
  cases hcase : s.toList.reverse with
  | nil => rw [hcase] at hrev; simp at hrev
  | cons x xs =>
      rw [hcase] at hrev
      simp only [List.head?_cons, Option.some.injEq] at hrev
      subst hrev
      rw [List.dropWhile_cons, if_neg (by simp [hc])]
      have hback : (x :: xs).reverse = s.toList := by
        rw [← hcase, List.reverse_reverse]
      rw [hback]
      cases s
      rfl

theorem processRow_ok_shape {r : Row} {th : Cell} {out : List PyVal}
    (hth : r.cells.find? (fun c => c.tag == CellTag.th) = some th)
    (hok : processRow r = .ok out) :
    ∃ link lc, linkOf th = .ok link ∧ lastChar th.text = .ok lc ∧
      out = [PyVal.str (pyRstripStar th.text)] ++
        (r.cells.filter (fun c => c.tag == CellTag.td)).map (fun c => PyVal.str c.text) ++
        [PyVal.str link, PyVal.int th.strongs, PyVal.bool (lc == '*')] := by
  unfold processRow at hok
  rw [hth] at hok
  have hok2 : processRowWith r th = .ok out := hok
  unfold processRowWith at hok2
  cases hl : linkOf th with
  | error e => rw [hl] at hok2; simp at hok2
  | ok link =>
      rw [hl] at hok2
      cases hc : lastChar th.text with
      | error e => rw [hc] at hok2; simp at hok2
      | ok lc =>
          rw [hc] at hok2
          have hok3 : (Except.ok ([PyVal.str (pyRstripStar th.text)] ++
              (r.cells.filter (fun c => c.tag == CellTag.td)).map (fun c => PyVal.str c.text) ++
              [PyVal.str link, PyVal.int th.strongs, PyVal.bool (lc == '*')]) :
              Except PyError (List PyVal)) = .ok out := hok2
          simp only [Except.ok.injEq] at hok3
          exact ⟨link, lc, rfl, rfl, hok3.symm⟩

theorem linkOf_single {th : Cell} {a : Anchor} {u : String}
    (ha : th.anchors = [a]) (hu : a.href = some u) : linkOf th = .ok u := by
  unfold linkOf
  rw [ha, if_pos (show (([a] : List Anchor).length == 1) = true from rfl)]
  show (match a.href with
      | some u => (Except.ok u : Except PyError String)
      | none => Except.error PyError.keyError) = Except.ok u
  rw [hu]

theorem linkOf_not_single {th : Cell} (h : th.anchors.length ≠ 1) :
    linkOf th = .ok "" := by
  unfold linkOf
  rw [if_neg (by simp [h])]

/-! Claim theorems for the roster-row properties. -/

/-- C6 counterexample: for the row whose name cell text is "AB**" (which
ends in the marker), the code stores "AB" -- str.rstrip removed BOTH
trailing asterisks -- while the claim's stored name, the cell text with the
trailing asterisk removed, is "AB*". -/
theorem C6_hof_counterexample :
    processRow rowStars =
      .ok [PyVal.str "AB", PyVal.str "", PyVal.int 0, PyVal.bool true] ∧
    (("AB" : String) == "AB*") = false :=
  ⟨rfl, rfl⟩

/-- C6 (amended): for every processed roster row, when the name cell text
ends in the character `*` the emitted record's name (its first entry) is
the text with ALL trailing asterisks removed and is_hof (its last entry) is
true; when the (necessarily nonempty) text ends in any other character the
name is stored unchanged and is_hof is false. -/
theorem C6_hof_amended (r : Row) (th : Cell) (out : List PyVal)
    (hth : r.cells.find? (fun c => c.tag == CellTag.th) = some th)
    (hok : processRow r = .ok out) :
    (th.text.toList.getLast? = some '*' →
        out.head? = some (PyVal.str (pyRstripStar th.text)) ∧
        out.getLast? = some (PyVal.bool true)) ∧
    (∀ c : Char, th.text.toList.getLast? = some c → (c == '*') = false →
        out.head? = some (PyVal.str th.text) ∧
        out.getLast? = some (PyVal.bool false)) := by
  obtain ⟨link, lc, hl, hc, hout⟩ := processRow_ok_shape hth hok
  have hlc : th.text.toList.getLast? = some lc := lastChar_ok hc
  subst hout
  constructor
  · intro hstar
    rw [hlc] at hstar
    simp only [Option.some.injEq] at hstar
    subst hstar
    constructor
    · simp
    · exact append3_getLast _ _ _ _
  · intro c hgc hcne
    rw [hlc] at hgc
    simp only [Option.some.injEq] at hgc
    subst hgc
    constructor
    · rw [pyRstripStar_of_getLast hlc hcne]
      simp
    · rw [show (PyVal.bool (lc == '*')) = PyVal.bool false from by rw [hcne]]
      exact append3_getLast _ _ _ _

/-- C6 witness: the amended statement applied to the concrete row whose
name is "AB**". -/
theorem C6_hof_witness :
    processRow rowStars =
      .ok [PyVal.str "AB", PyVal.str "", PyVal.int 0, PyVal.bool true] ∧
    ([PyVal.str "AB", PyVal.str "", PyVal.int 0, PyVal.bool true].head? =
        some (PyVal.str (pyRstripStar "AB**")) ∧
      [PyVal.str "AB", PyVal.str "", PyVal.int 0, PyVal.bool true].getLast? =
        some (PyVal.bool true)) := by
  refine ⟨rfl, ?_⟩
  exact (C6_hof_amended rowStars cellStars _ rfl rfl).1 (by decide)

/-- C7 counterexample: for the row whose name cell holds one strong marker,
the emitted is_active value is the integer 1 (the marker count), not a
boolean, refuting the claim that the emitted flags are booleans. -/
theorem C7_flags_counterexample :
    processRow rowStrong =
      .ok [PyVal.str "Joe", PyVal.str "", PyVal.int 1, PyVal.bool false] ∧
    [PyVal.str "Joe", PyVal.str "", PyVal.int 1,
        PyVal.bool false].dropLast.getLast? = some (PyVal.int 1) ∧
    isBoolVal (PyVal.int 1) = false :=
  ⟨rfl, rfl, rfl⟩

/-- C7 (amended): for every processed roster row, the emitted is_active
value is the integer count of strong marker elements in the name cell (an
int, not a boolean), truthy exactly when at least one marker is present,
and the emitted is_hof value is a boolean. -/
theorem C7_flags_amended (r : Row) (th : Cell) (out : List PyVal)
    (hth : r.cells.find? (fun c => c.tag == CellTag.th) = some th)
    (hok : processRow r = .ok out) :
    out.dropLast.getLast? = some (PyVal.int th.strongs) ∧
    isBoolVal (PyVal.int th.strongs) = false ∧
    (pyTruthy (PyVal.int th.strongs) = true ↔ 1 ≤ th.strongs) ∧
    (∃ b : Bool, out.getLast? = some (PyVal.bool b)) := by
  obtain ⟨link, lc, hl, hc, hout⟩ := processRow_ok_shape hth hok
  subst hout
  refine ⟨append3_dropLast_getLast _ _ _ _, rfl, ?_, ⟨_, append3_getLast _ _ _ _⟩⟩
  simp only [pyTruthy, ne_eq, bne_iff_ne]
  omega

/-- C7 witness: the amended statement applied to the concrete row with one
strong marker. -/
theorem C7_flags_witness :
    processRow rowStrong =
      .ok [PyVal.str "Joe", PyVal.str "", PyVal.int 1, PyVal.bool false] ∧
    [PyVal.str "Joe", PyVal.str "", PyVal.int 1,
        PyVal.bool false].dropLast.getLast? = some (PyVal.int cellStrong.strongs) := by
  refine ⟨rfl, ?_⟩
  exact (C7_flags_amended rowStrong cellStrong _ rfl rfl).1

/-- C8: for every processed roster row, when the name cell holds exactly
one anchor and that anchor has a target, the emitted link (third-from-last
entry of the record) is that target; when the anchor count differs from
one, the emitted link is the empty string. -/
theorem C8_link (r : Row) (th : Cell) (out : List PyVal)
    (hth : r.cells.find? (fun c => c.tag == CellTag.th) = some th)
    (hok : processRow r = .ok out) :
    (∀ a u, th.anchors = [a] → a.href = some u →
        out.dropLast.dropLast.getLast? = some (PyVal.str u)) ∧
    (th.anchors.length ≠ 1 →
        out.dropLast.dropLast.getLast? = some (PyVal.str "")) := by
  obtain ⟨link, lc, hl, hc, hout⟩ := processRow_ok_shape hth hok
  subst hout
  constructor
  · intro a u ha hu
    have hu' : linkOf th = .ok u := linkOf_single ha hu
    rw [hl] at hu'
    simp only [Except.ok.injEq] at hu'
    subst hu'
    exact append3_dropLast2_getLast _ _ _ _
  · intro hne
    have hu' : linkOf th = .ok "" := linkOf_not_single hne
    rw [hl] at hu'
    simp only [Except.ok.injEq] at hu'
    subst hu'
    exact append3_dropLast2_getLast _ _ _ _

/-- C8 witness: the link statement applied to the concrete row holding
exactly one anchor with target "/players/x.html". -/
theorem C8_link_witness :
    processRow rowLink =
      .ok [PyVal.str "Name", PyVal.str "/players/x.html", PyVal.int 0,
        PyVal.bool false] ∧
    [PyVal.str "Name", PyVal.str "/players/x.html", PyVal.int 0,
        PyVal.bool false].dropLast.dropLast.getLast? =
      some (PyVal.str "/players/x.html") := by
  refine ⟨rfl, ?_⟩
  exact (C8_link rowLink cellLink _ rfl rfl).1 ⟨some "/players/x.html"⟩
    "/players/x.html" rfl rfl

/-- C9: a processed roster row whose name cell text is empty never yields a
record -- the call raises: when the link extraction does not raise first
(anchor count differing from one), the hall-of-fame check name[-1] raises
IndexError on the empty string. -/
theorem C9_empty_name (r : Row) (th : Cell)
    (hth : r.cells.find? (fun c => c.tag == CellTag.th) = some th)
    (hempty : th.text = "") :
    exceptIsOk (processRow r) = false ∧
    (th.anchors.length ≠ 1 → processRow r = .error PyError.indexError) := by
  have hlc : lastChar th.text = .error .indexError := by rw [hempty]; rfl
  constructor
  · unfold processRow
    rw [hth]
    show exceptIsOk (processRowWith r th) = false
    unfold processRowWith
    cases hl : linkOf th with
    | error e => rfl
    | ok link =>
        rw [hlc]
        rfl
  · intro hne
    unfold processRow
    rw [hth]
    show processRowWith r th = .error PyError.indexError
    unfold processRowWith
    rw [linkOf_not_single hne, hlc]

/-- C9 witness: the empty-name statement applied to the concrete row whose
name cell text is "". -/
theorem C9_empty_name_witness :
    processRow rowEmpty = .error PyError.indexError :=
  (C9_empty_name rowEmpty cellEmpty rfl rfl).2 (by decide)

/-! Claim theorems for the fetch-failure and lookup-failure behaviour. -/

/-- C1: when a per-letter request fails, get_all_players does abort the
whole fetch immediately -- also discarding letters already scraped -- but
the value returned is the tuple ([], []) of line 33 of the source, not an
empty table of the success type (the function's own docstring promises a
pd.DataFrame).  Evaluated with every request failing, and with the request
for letter a succeeding (a header-only page) and the request for letter b
failing. -/
theorem C1_abort_returns_tuple :
    get_all_players (fun _ => none) = .ok RosterReturn.listPair ∧
    get_all_players (fun c => if c = 'a' then some pageHeaderOnly else none) =
      .ok RosterReturn.listPair ∧
    RosterReturn.isDataFrame RosterReturn.listPair = false :=
  ⟨rfl, rfl, rfl⟩

/-- C2: for a document whose target container appears only inside a comment
node, get_table raises NameError instead of extracting the table: the
comment fallback evaluates the name Comment, which the module never
imports. -/
theorem C2_comment_fallback_nameError :
    get_table docC2 "per_game" = .error PyError.nameError :=
  rfl

/-- C3: for a document lacking the target identifier entirely and holding
an ordinary text node, get_table raises NameError in the comment-fallback
scan instead of returning the absent result; the graceful absent result is
produced only when a container is found directly but lacks thead or tbody
(second conjunct), or when the document has no string nodes at all. -/
theorem C3_absent_raises :
    get_table docC3 "per_game" = .error PyError.nameError ∧
    get_table docC3b "per_game" = .ok none :=
  ⟨rfl, rfl⟩

/-! Claim theorems for the extracted table's shape. -/

/-- C5: every non-absent table get_table returns has, in every column, one
value per body row; its column keys are exactly the header texts in
first-occurrence order (a sublist of the header texts in document order);
and every column's value sequence is the row-by-row traversal of the body
for some header cell bearing that column's text, so row order is the body
order. -/
theorem C5_table_shape (soup : Doc) (div_id : String) (d : TableDiv) (hd : THead)
    (bd : TBody) (t : StatTable)
    (hfind : soup.divs.find? (fun dv => dv.id == some div_id) = some d)
    (hth : d.thead = some hd) (htb : d.tbody = some bd)
    (hok : get_table soup div_id = .ok (some t)) :
    (∀ kv ∈ t.cols, kv.2.length = bd.trs.length) ∧
    t.cols.map Prod.fst = newKeys [] (hd.ths.map Cell.text) ∧
    List.Sublist (t.cols.map Prod.fst) (hd.ths.map Cell.text) ∧
    (∀ kv ∈ t.cols, ∃ hc tg, hc ∈ hd.ths ∧ hc.text = kv.1 ∧
        colValues tg hc.dataStat bd.trs = .ok kv.2) := by
  have hec := get_table_ok_cols hfind hth htb hok
  cases hths : hd.ths with
  | nil =>
      rw [hths] at hec
      simp [extractCols] at hec
  | cons h0 rest =>
      rw [hths] at hec
      obtain ⟨v0, hv0, hfold⟩ := extractCols_ok_destruct hec
      have hkeys : t.cols.map Prod.fst = newKeys [] ((h0 :: rest).map Cell.text) :=
        extractCols_keys hec
      refine ⟨?_, hkeys, ?_, ?_⟩
      · have hbase : ∀ kv ∈ ([(h0.text, v0)] : PyDict), kv.2.length = bd.trs.length := by
          intro kv hkv
          have : kv = (h0.text, v0) := by simpa using hkv
          rw [this]
          exact exceptMapM_ok_length hv0
        exact dictFold_ok_prop hfold (fun c hc v hv => exceptMapM_ok_length hv) hbase
      · rw [hkeys]
        exact newKeys_sublist _ _
      · have hbase : ∀ kv ∈ ([(h0.text, v0)] : PyDict), ∃ hc tg, hc ∈ h0 :: rest ∧
            hc.text = kv.1 ∧ colValues tg hc.dataStat bd.trs = .ok kv.2 := by
          intro kv hkv
          have : kv = (h0.text, v0) := by simpa using hkv
          rw [this]
          exact ⟨h0, CellTag.th, List.mem_cons_self _ _, rfl, hv0⟩
        exact dictFold_ok_prop hfold
          (fun c hc v hv => ⟨c, CellTag.td, List.mem_cons_of_mem _ hc, rfl, hv⟩) hbase

/-- C5 witness: the shape statement applied to the alignment example
document. -/
theorem C5_table_shape_witness :
    get_table docRev "t" = .ok (some tRev) ∧
    tRev.cols.map Prod.fst = newKeys [] (hdRev.ths.map Cell.text) := by
  refine ⟨rfl, ?_⟩
  exact (C5_table_shape docRev "t" dRev hdRev bdRev tRev rfl rfl rfl rfl).2.1

/-- C10: when two header cells share a visible text k, the table holds
exactly one column under k -- populated from the later (last) such header
cell's data-stat key via td lookup, the earlier cell's values having been
overwritten -- and the table has fewer columns than there are header
cells. -/
theorem C10_duplicate_headers (soup : Doc) (div_id : String) (d : TableDiv)
    (hd : THead) (bd : TBody) (t : StatTable) (k : String)
    (hfind : soup.divs.find? (fun dv => dv.id == some div_id) = some d)
    (hth : d.thead = some hd) (htb : d.tbody = some bd)
    (hok : get_table soup div_id = .ok (some t))
    (hdup : 2 ≤ (hd.ths.filter (fun c => c.text == k)).length) :
    t.cols.length < hd.ths.length ∧
    t.cols.countP (fun kv => kv.1 == k) = 1 ∧
    ∃ hc vs, ((hd.ths.drop 1).filter (fun c => c.text == k)).getLast? = some hc ∧
      colValues CellTag.td hc.dataStat bd.trs = .ok vs ∧
      dictGet t.cols k = some vs := by
  have hec := get_table_ok_cols hfind hth htb hok
  cases hths : hd.ths with
  | nil => rw [hths] at hdup; simp at hdup
  | cons h0 rest =>
      rw [hths] at hec hdup
      obtain ⟨v0, hv0, hfold⟩ := extractCols_ok_destruct hec
      have hkeys := extractCols_keys hec
      have hrest1 : 1 ≤ (rest.filter (fun c => c.text == k)).length := by
        rw [List.filter_cons] at hdup
        by_cases hp0 : (h0.text == k) = true
        · rw [if_pos hp0] at hdup
          simp only [List.length_cons] at hdup
          omega
        · rw [if_neg hp0] at hdup
          omega
      have hkmem : k ∈ rest.map Cell.text := by
        cases hfr : rest.filter (fun c => c.text == k) with
        | nil => rw [hfr] at hrest1; simp at hrest1
        | cons b bs =>
            have hbmem : b ∈ rest.filter (fun c => c.text == k) := by
              rw [hfr]
              exact List.mem_cons_self _ _
            have hb := List.mem_filter.mp hbmem
            exact List.mem_map.mpr ⟨b, hb.1, eq_of_beq hb.2⟩
      obtain ⟨hc, vs, hlast, htext, hcv, hget⟩ := dictFold_ok_get_last hfold hkmem
      have hnodup : (t.cols.map Prod.fst).Nodup := by
        rw [hkeys]
        exact newKeys_nodup _ _
      refine ⟨?_, ?_, hc, vs, hlast, hcv, hget⟩
      · have hsub : List.Sublist (t.cols.map Prod.fst) ((h0 :: rest).map Cell.text) := by
          rw [hkeys]
          exact newKeys_sublist _ _
        have hle := hsub.length_le
        have hcount : ((h0 :: rest).map Cell.text).countP (fun x => x == k) =
            (List.filter (fun c => c.text == k) (h0 :: rest)).length := by
          rw [List.countP_map, List.countP_eq_length_filter]
          rfl
        have hne : (t.cols.map Prod.fst).length ≠ ((h0 :: rest).map Cell.text).length := by
          intro heq
          have heqs := hsub.eq_of_length heq
          have hnd2 : ((h0 :: rest).map Cell.text).Nodup := by
            rw [← heqs]
            exact hnodup
          have hle1 : ((h0 :: rest).map Cell.text).countP (fun x => x == k) ≤ 1 :=
            nodup_countP_le_one hnd2
          rw [hcount] at hle1
          omega
        have hmap1 : (t.cols.map Prod.fst).length = t.cols.length := List.length_map _ _
        have hmap2 : ((h0 :: rest).map Cell.text).length = (h0 :: rest).length :=
          List.length_map _ _
        omega
      · have hkmem2 : k ∈ t.cols.map Prod.fst := by
          rw [hkeys]
          exact newKeys_mem.mpr ⟨List.mem_cons_of_mem _ hkmem, List.not_mem_nil k⟩
        exact keys_countP_one hnodup hkmem2

/-- C10 witness: the duplicate-header statement applied to the concrete
document whose header texts are A, X, X. -/
theorem C10_duplicate_headers_witness :
    get_table docDup "t" = .ok (some tDup) ∧ tDup.cols.length < hdDup.ths.length := by
  refine ⟨rfl, ?_⟩
  exact (C10_duplicate_headers docDup "t" dDup hdDup bdDup tDup "X"
    rfl rfl rfl rfl (by decide)).1

theorem filter_eq_singleton_of_map_nodup {l : List Cell} {h : Cell}
    (hnd : (l.map Cell.text).Nodup) (hmem : h ∈ l) :
    l.filter (fun c => c.text == h.text) = [h] := by
  induction l with
  | nil => simp at hmem
  | cons a tl ih =>
      have hndc : a.text ∉ tl.map Cell.text ∧ (tl.map Cell.text).Nodup :=
        List.nodup_cons.mp (by simpa using hnd)
      rcases List.mem_cons.mp hmem with hm | hm
      · subst hm
        rw [List.filter_cons, if_pos (by simp)]
        have hnil : tl.filter (fun c => c.text == h.text) = [] := by
          apply List.filter_eq_nil_iff.mpr
          intro c hc hbc
          apply hndc.1
          rw [← eq_of_beq hbc]
          exact List.mem_map.mpr ⟨c, hc, rfl⟩
        rw [hnil]
      · have hne : (a.text == h.text) = false := by
          apply beq_eq_false_iff_ne.mpr
          intro heq
          apply hndc.1
          rw [heq]
          exact List.mem_map.mpr ⟨h, hm, rfl⟩
        rw [List.filter_cons, if_neg (by simp [hne])]
        exact ih hndc.2 hm

/-- C4: body cells are aligned to header columns by the data-stat key, not
by physical position -- a cell matching a header's key, wherever it sits in
its row (uniqueness of the match assumed), supplies that column's value at
the row's index; and a body row with no cell matching some header's tag
kind and key makes get_table raise AttributeError (a hard lookup failure),
never a blank. -/
theorem C4_alignment (soup : Doc) (div_id : String) (d : TableDiv) (hd : THead)
    (bd : TBody) (h0 : Cell) (hrest : List Cell)
    (hfind : soup.divs.find? (fun dv => dv.id == some div_id) = some d)
    (hth : d.thead = some hd) (htb : d.tbody = some bd)
    (hcons : hd.ths = h0 :: hrest)
    (hnd : ((h0 :: hrest).map Cell.text).Nodup) :
    (∀ t : StatTable, get_table soup div_id = .ok (some t) →
      (∀ vs, dictGet t.cols h0.text = some vs →
        ∀ (j : Nat) (r : Row) (c : Cell), bd.trs.get? j = some r → c ∈ r.cells →
          (c.tag == CellTag.th && c.dataStat == h0.dataStat) = true →
          countMatches r CellTag.th h0.dataStat = 1 →
          vs.get? j = some c.text) ∧
      (∀ h, h ∈ hrest → ∀ vs, dictGet t.cols h.text = some vs →
        ∀ (j : Nat) (r : Row) (c : Cell), bd.trs.get? j = some r → c ∈ r.cells →
          (c.tag == CellTag.td && c.dataStat == h.dataStat) = true →
          countMatches r CellTag.td h.dataStat = 1 →
          vs.get? j = some c.text)) ∧
    (∀ h tg, ((h = h0 ∧ tg = CellTag.th) ∨ (h ∈ hrest ∧ tg = CellTag.td)) →
      ∀ r, r ∈ bd.trs → countMatches r tg h.dataStat = 0 →
      get_table soup div_id = .error PyError.attributeError) := by
  constructor
  · intro t hok
    have hec := get_table_ok_cols hfind hth htb hok
    rw [hcons] at hec
    obtain ⟨v0, hv0, hfold⟩ := extractCols_ok_destruct hec
    have hndc : h0.text ∉ hrest.map Cell.text ∧ (hrest.map Cell.text).Nodup :=
      List.nodup_cons.mp (by simpa using hnd)
    constructor
    · intro vs hvs j r c hj hc hmatch hcount
      have hvget : dictGet t.cols h0.text = some v0 := by
        rw [dictFold_ok_get_not_mem hfold hndc.1]
        simp [dictGet]
      rw [hvget] at hvs
      simp only [Option.some.injEq] at hvs
      subst hvs
      have hv0' : exceptMapM (fun r => match cellFind CellTag.th h0.dataStat r with
          | some c => Except.ok c.text
          | none => Except.error PyError.attributeError) bd.trs = Except.ok v0 := hv0
      obtain ⟨b, hfb, hvj⟩ := exceptMapM_ok_get hv0' hj
      have hfindc : cellFind CellTag.th h0.dataStat r = some c :=
        find?_of_countP_one hcount hc hmatch
      rw [hfindc] at hfb
      simp only [Except.ok.injEq] at hfb
      rw [hvj, ← hfb]
    · intro h hmem vs hvs j r c hj hc hmatch hcount
      have hkmem : h.text ∈ hrest.map Cell.text := List.mem_map.mpr ⟨h, hmem, rfl⟩
      obtain ⟨hc', vs', hlast, htext, hcv, hget⟩ := dictFold_ok_get_last hfold hkmem
      have hfilter : hrest.filter (fun c => c.text == h.text) = [h] :=
        filter_eq_singleton_of_map_nodup hndc.2 hmem
      rw [hfilter] at hlast
      simp at hlast
      subst hlast
      rw [hget] at hvs
      simp only [Option.some.injEq] at hvs
      subst hvs
      have hcv' : exceptMapM (fun r => match cellFind CellTag.td h.dataStat r with
          | some c => Except.ok c.text
          | none => Except.error PyError.attributeError) bd.trs = Except.ok vs' := hcv
      obtain ⟨b, hfb, hvj⟩ := exceptMapM_ok_get hcv' hj
      have hfindc : cellFind CellTag.td h.dataStat r = some c :=
        find?_of_countP_one hcount hc hmatch
      rw [hfindc] at hfb
      simp only [Except.ok.injEq] at hfb
      rw [hvj, ← hfb]
  · intro h tg hcase r hr hcount0
    have hnone : cellFind tg h.dataStat r = none := find?_of_countP_zero hcount0
    have hcv_err : colValues tg h.dataStat bd.trs = .error .attributeError :=
      colValues_err_of_missing hr hnone
    apply get_table_error_of_extract hfind hth htb
    rw [hcons]
    rcases hcase with ⟨he, ht⟩ | ⟨hmem, ht⟩
    · subst he
      subst ht
      simp only [extractCols]
      rw [hcv_err]
    · subst ht
      simp only [extractCols]
      cases hv0 : colValues CellTag.th h0.dataStat bd.trs with
      | error e =>
          have heq : e = PyError.attributeError := colValues_error_eq hv0
          rw [heq]
      | ok v0 =>
          show dictFold bd.trs hrest (dictSet [] h0.text v0) = .error PyError.attributeError
          exact dictFold_error_attr hmem hcv_err _

/-- C4 witness: the alignment statement applied to the document whose two
body rows list their cells in reversed physical order: the value of column
B at row index 0 is still the text of the cell tagged data-stat b. -/
theorem C4_alignment_witness :
    get_table docRev "t" = .ok (some tRev) ∧ colB.get? 0 = some "b1" := by
  refine ⟨rfl, ?_⟩
  have hmain := C4_alignment docRev "t" dRev hdRev bdRev (mkTh "A" "a")
    [mkTh "B" "b", mkTh "C" "c"] rfl rfl rfl rfl (by decide)
  exact (hmain.1 tRev rfl).2 (mkTh "B" "b") (by decide) colB rfl 0 rowRev1
    (mkTd "b1" "b") rfl (by decide) (by decide) (by decide)
